import Mathlib

/-!
# Verification of the rag-ai-stack retrieval-and-generation core

Shallow embedding, in Lean 4, of the pipeline core of the repository
`rag-ai-stack_v02`:

* the streaming producer/consumer orchestration of one chat turn
  (`backend/app.py`, `on_message`);
* the source-attribution segment computed after a streamed turn
  (`backend/app.py`, `on_message`);
* the deterministic hashing embedding
  (`core/adapters/llama_index/llama_index_adapter.py`,
  `HashingEmbedding._embed`), with floating-point arithmetic idealised
  over `ℝ` (token counts are small integers, exactly representable, so
  the only idealisation is in the final normalisation);
* the retriever construction (`LlamaIndexRetriever.__init__`);
* the model-connection bring-up (`_configure_settings_from_env`);
* index loading (`LlamaIndexIndexer.load` and `_load_index`);
* the incremental JSON index build (`indexer/ingest.py`, `build_index`).

Each Python function is translated as directly as Lean allows; effectful
parts (the asyncio queue, the network, the file system) are made explicit
as data: the FIFO queue of one turn is the list of enqueued items, the
environment/network is a record of observable outcomes, and the document
tree is a list of (relative path, readable content) pairs.
-/

namespace RagStack

/-! ## Streaming orchestration (`backend/app.py`, `on_message`)

One chat turn opens an unbounded `asyncio.Queue[str | None]`, starts one
consumer pulling until it sees `None`, and one producer (async path via
`agenerate_stream`, or the blocking `generate_stream` relayed from a
worker thread through `loop.call_soon_threadsafe`).  The queue is strictly
FIFO and single-producer/single-consumer for the turn, so the channel is
modelled as the list of enqueued items in enqueue order: `some token` for
a token, `none` for the end-of-stream marker. -/

/-- The async producer (`produce_async`): for each token of the generator,
`await queue.put(token)`, then `await queue.put(None)` exactly once. -/
def produceAsync (toks : List String) : List (Option String) :=
  toks.map some ++ [none]

/-- The blocking producer relayed from a worker thread (`produce_sync`):
for each token, `loop.call_soon_threadsafe(queue.put_nowait, token)`, then
one final `loop.call_soon_threadsafe(queue.put_nowait, None)`.
`call_soon_threadsafe` preserves the call order of the single worker
thread, so the enqueued sequence is the same as on the async path. -/
def produceSync (toks : List String) : List (Option String) :=
  toks.map some ++ [none]

/-- The consumer (`consume`): pull from the queue until the end-of-stream
marker `None`; each pulled token is appended to `answer_parts` and
forwarded to the sink by `sent.stream_token`.  The returned list is both
the sink-delivery order and the accumulator contents. -/
def consume : List (Option String) → List String
  | [] => []
  | none :: _ => []
  | some t :: rest => t :: consume rest

/-- `answer = "".join(answer_parts)`. -/
def accumulatedAnswer (delivered : List String) : String :=
  String.join delivered

theorem consume_produceAsync (toks : List String) :
    consume (produceAsync toks) = toks := by
  induction toks with
  | nil => rfl
  | cons t rest ih =>
      simp only [produceAsync, List.map_cons, List.cons_append, consume] at *
      exact congrArg (t :: ·) ih

theorem consume_produceSync (toks : List String) :
    consume (produceSync toks) = toks :=
  consume_produceAsync toks

/-- Claim C1: for every finite token sequence emitted by the producer (either
concurrency shape), the consumer delivers exactly those tokens to the sink
in order, the producer enqueues exactly one end-of-stream marker and it
comes after the last token, and the accumulated answer (before source
attribution) is the concatenation of the tokens. -/
theorem onMessage_stream_delivery (toks : List String) :
    consume (produceAsync toks) = toks ∧
    consume (produceSync toks) = toks ∧
    produceAsync toks = toks.map some ++ [none] ∧
    produceSync toks = toks.map some ++ [none] ∧
    (produceAsync toks).count none = 1 ∧
    (produceSync toks).count none = 1 ∧
    accumulatedAnswer (consume (produceAsync toks)) = String.join toks ∧
    accumulatedAnswer (consume (produceSync toks)) = String.join toks ∧
    consume (produceAsync ["pong", "!"]) = ["pong", "!"] ∧
    accumulatedAnswer (consume (produceAsync ["pong", "!"])) = "pong!" := by
  refine ⟨consume_produceAsync toks, consume_produceSync toks, rfl, rfl, ?_, ?_, ?_, ?_,
    by decide, by decide⟩
  · simp [produceAsync, List.count_append, List.count_eq_zero]
  · simp [produceSync, List.count_append, List.count_eq_zero]
  · rw [consume_produceAsync]; rfl
  · rw [consume_produceSync]; rfl

/-! ## Python string primitives

`backend/app.py` renders the source list with Python's `sorted` (code-point
lexicographic order on strings) and `", ".join`.  Lean's library order on
`String` is defined through sealed well-founded recursion that the kernel
cannot evaluate, so the same orders and joins are embedded as structural
recursions over the character data. -/

/-- Code-point lexicographic comparison of character lists: the order
Python uses to compare `str` values. -/
def lexLe : List Char → List Char → Bool
  | [], _ => true
  | _ :: _, [] => false
  | a :: as, b :: bs => if a < b then true else if a = b then lexLe as bs else false

/-- `a <= b` on Python strings. -/
def pyLe (a b : String) : Prop := lexLe a.data b.data = true

instance : DecidableRel pyLe := fun a b => by unfold pyLe; infer_instance

theorem lexLe_cons {a b : Char} {as bs : List Char} :
    lexLe (a :: as) (b :: bs) = true ↔ a < b ∨ (a = b ∧ lexLe as bs = true) := by
  simp only [lexLe]
  split_ifs with h1 h2
  · simp [h1]
  · simp [h1, h2]
  · simp [h1, h2]

theorem lexLe_total : ∀ as bs : List Char, lexLe as bs = true ∨ lexLe bs as = true := by
  intro as
  induction as with
  | nil => intro bs; left; rfl
  | cons a as ih =>
    intro bs
    cases bs with
    | nil => right; rfl
    | cons b bs =>
      rcases lt_trichotomy a b with h | h | h
      · left; rw [lexLe_cons]; exact Or.inl h
      · subst h
        rcases ih bs with h' | h'
        · left; rw [lexLe_cons]; exact Or.inr ⟨rfl, h'⟩
        · right; rw [lexLe_cons]; exact Or.inr ⟨rfl, h'⟩
      · right; rw [lexLe_cons]; exact Or.inl h

theorem lexLe_trans :
    ∀ as bs cs : List Char,
      lexLe as bs = true → lexLe bs cs = true → lexLe as cs = true := by
  intro as
  induction as with
  | nil => intros; rfl
  | cons a as ih =>
    intro bs cs h1 h2
    cases bs with
    | nil => simp [lexLe] at h1
    | cons b bs =>
      cases cs with
      | nil => simp [lexLe] at h2
      | cons c cs =>
        rw [lexLe_cons] at h1 h2 ⊢
        rcases h1 with h1 | ⟨rfl, h1⟩
        · rcases h2 with h2 | ⟨rfl, h2⟩
          · exact Or.inl (h1.trans h2)
          · exact Or.inl h1
        · rcases h2 with h2 | ⟨rfl, h2⟩
          · exact Or.inl h2
          · exact Or.inr ⟨rfl, ih bs cs h1 h2⟩

instance : IsTotal String pyLe := ⟨fun a b => lexLe_total a.data b.data⟩

instance : IsTrans String pyLe := ⟨fun a b c => lexLe_trans a.data b.data c.data⟩

theorem pyLe_empty_left (s : String) : pyLe "" s := rfl

theorem eq_empty_of_pyLe_empty {s : String} (h : pyLe s "") : s = "" := by
  unfold pyLe at h
  cases s with
  | mk d =>
    cases d with
    | nil => rfl
    | cons c cs => simp [lexLe] at h

/-- Python's `sep.join(parts)`: parts interleaved with `sep`, empty string
for an empty list, no trailing separator. -/
def joinWith (sep : String) : List String → String
  | [] => ""
  | [a] => a
  | a :: b :: rest => a ++ sep ++ joinWith sep (b :: rest)

theorem length_le_joinWith {sep : String} :
    ∀ {l : List String} {s : String}, s ∈ l → s.length ≤ (joinWith sep l).length := by
  intro l
  induction l with
  | nil => intro s hs; cases hs
  | cons a t ih =>
    intro s hs
    cases t with
    | nil =>
      rcases List.mem_cons.mp hs with rfl | h
      · exact le_refl _
      · cases h
    | cons b rest =>
      rcases List.mem_cons.mp hs with rfl | h
      · show s.length ≤ (s ++ sep ++ joinWith sep (b :: rest)).length
        simp only [String.length_append]
        omega
      · have := ih h
        show s.length ≤ (a ++ sep ++ joinWith sep (b :: rest)).length
        simp only [String.length_append]
        omega

theorem joinWith_ne_empty_of_mem {l : List String} {s : String}
    (hm : s ∈ l) (hs : s ≠ "") : joinWith ", " l ≠ "" := by
  intro h
  have hlen := @length_le_joinWith ", " l s hm
  rw [h] at hlen
  apply hs
  cases s with
  | mk d =>
    cases d with
    | nil => rfl
    | cons c cs => simp [String.length, List.length] at hlen

/-! ## Source attribution (`backend/app.py`, `on_message`, after the join)

```python
answer = "".join(answer_parts)
sources = ", ".join(
    sorted(
        {
            (getattr(getattr(n, "node", n), "metadata", {}) or {}).get("file_name")
            or (getattr(getattr(n, "node", n), "metadata", {}) or {}).get("source", "")
            for n in nodes
            if getattr(getattr(n, "node", n), "metadata", None)
        }
    )
)
if sources:
    sources_text = f"\n\nQuellen: {sources}"
    answer += sources_text
    await sent.stream_token(sources_text)
```

A `NodeWithScore` is modelled by the only part this code reads: its
metadata mapping, as an association list (`[]` stands for both a missing
and an empty — hence falsy — metadata attribute).  Python's `set` followed
by `sorted` is the deduplicated ascending enumeration of the contributed
values, modelled by `List.dedup` followed by `List.insertionSort pyLe`
(values are distinct after `dedup`, so any correct sort agrees with
Python's). -/

/-- The part of a retrieved `NodeWithScore` that source attribution
reads. -/
structure AppNode where
  metadata : List (String × String)
deriving DecidableEq

/-- Python `md.get(k)`: `some` value when the key is present, else
`none`. -/
def metaGet (md : List (String × String)) (k : String) : Option String :=
  (md.find? (fun p => p.1 == k)).map Prod.snd

/-- `md.get("file_name") or md.get("source", "")`: Python `or` falls
through both on a missing `file_name` key and on a falsy (empty-string)
`file_name` value. -/
def nodeSourceName (md : List (String × String)) : String :=
  match metaGet md "file_name" with
  | some v => if v = "" then (metaGet md "source").getD "" else v
  | none => (metaGet md "source").getD ""

/-- The values contributed to the set: one per node whose metadata
mapping is truthy (non-empty). -/
def sourcesNames (nodes : List AppNode) : List String :=
  (nodes.filter (fun n => !n.metadata.isEmpty)).map (fun n => nodeSourceName n.metadata)

/-- `sorted({...})`: deduplicated, in ascending code-point lexicographic
order. -/
def sourcesSorted (nodes : List AppNode) : List String :=
  List.insertionSort pyLe (sourcesNames nodes).dedup

/-- `", ".join(sorted({...}))`. -/
def sourcesJoined (nodes : List AppNode) : String :=
  joinWith ", " (sourcesSorted nodes)

/-- The `sources_text` segment actually appended: `""` when the joined
list is falsy (the `if sources:` guard), else `"\n\nQuellen: " ++ sources`. -/
def sourcesSegmentText (nodes : List AppNode) : String :=
  if sourcesJoined nodes = "" then "" else "\n\nQuellen: " ++ sourcesJoined nodes

/-- What one turn of `on_message` sends and accumulates. -/
structure TurnOutput where
  streamedChunks : List String
  answer : String
deriving DecidableEq

/-- One complete streamed turn: queue-mediated token delivery, answer
accumulation, then the conditional source-attribution append (to the
accumulated `answer` and, as one final chunk, to the sink). -/
def onMessageTurn (toks : List String) (nodes : List AppNode) : TurnOutput :=
  let delivered := consume (produceAsync toks)
  let answer := accumulatedAnswer delivered
  let sources := sourcesJoined nodes
  if sources = "" then ⟨delivered, answer⟩
  else ⟨delivered ++ ["\n\nQuellen: " ++ sources], answer ++ ("\n\nQuellen: " ++ sources)⟩

theorem mem_sourcesSorted_iff {nodes : List AppNode} {s : String} :
    s ∈ sourcesSorted nodes ↔ s ∈ sourcesNames nodes := by
  unfold sourcesSorted
  rw [(List.perm_insertionSort pyLe _).mem_iff]
  exact List.mem_dedup

theorem name_mem_sourcesSorted {nodes : List AppNode} {n : AppNode}
    (hn : n ∈ nodes) (hmd : n.metadata ≠ []) :
    nodeSourceName n.metadata ∈ sourcesSorted nodes := by
  rw [mem_sourcesSorted_iff]
  exact List.mem_map_of_mem _
    (List.mem_filter.mpr ⟨hn, by simpa [List.isEmpty_iff] using hmd⟩)

theorem sorted_sourcesSorted (nodes : List AppNode) :
    List.Sorted pyLe (sourcesSorted nodes) :=
  List.sorted_insertionSort pyLe _

theorem nodup_sourcesSorted (nodes : List AppNode) :
    (sourcesSorted nodes).Nodup :=
  ((List.perm_insertionSort pyLe _).nodup_iff).mpr (List.nodup_dedup _)

theorem sourcesSegmentText_eq_empty_iff {nodes : List AppNode} :
    sourcesSegmentText nodes = "" ↔ sourcesJoined nodes = "" := by
  unfold sourcesSegmentText
  split_ifs with h
  · simp [h]
  · constructor
    · intro hseg
      have := congrArg String.length hseg
      simp [String.length_append] at this
      exact absurd this.1 (by decide)
    · intro hj; exact absurd hj h

theorem sorted_head_empty {l : List String} (hs : List.Sorted pyLe l) (hmem : "" ∈ l) :
    ∃ t, l = "" :: t := by
  cases l with
  | nil => cases hmem
  | cons a t =>
    rcases List.mem_cons.mp hmem with h | h
    · exact ⟨t, by rw [← h]⟩
    · have := (List.sorted_cons.mp hs).1 "" h
      exact ⟨t, by rw [eq_empty_of_pyLe_empty this]⟩

/-- Claim C4, counterexample: on nodes carrying `file_name` values
`b.txt`, `a.txt`, `a.txt`, the rendered source segment is
`"\n\nQuellen: a.txt, b.txt"` — not the `"\n\nSources: a.txt, b.txt"` the
claim states (the code labels the segment with the German `Quellen:`). -/
theorem sources_label_counterexample :
    sourcesSegmentText
        [⟨[("file_name", "b.txt")]⟩, ⟨[("file_name", "a.txt")]⟩, ⟨[("file_name", "a.txt")]⟩]
      = "\n\nQuellen: a.txt, b.txt" ∧
    sourcesSegmentText
        [⟨[("file_name", "b.txt")]⟩, ⟨[("file_name", "a.txt")]⟩, ⟨[("file_name", "a.txt")]⟩]
      ≠ "\n\nSources: a.txt, b.txt" := by
  decide

/-- Claim C4 (amended: the segment label is the German `"Quellen: "`, not
`"Sources: "`): after a streamed turn, the unique `file_name`
(falling back to `source`) metadata values across the nodes are
deduplicated, sorted lexicographically and joined with `", "`; when
non-empty the segment `"\n\nQuellen: <list>"` is appended to both the
accumulated answer and the stream as one final chunk, and for `file_name`
values `b.txt`, `a.txt`, `a.txt` it renders as
`"\n\nQuellen: a.txt, b.txt"`. -/
theorem sources_segment_appended (toks : List String) (nodes : List AppNode)
    (h : sourcesJoined nodes ≠ "") :
    List.Sorted pyLe (sourcesSorted nodes) ∧
    (sourcesSorted nodes).Nodup ∧
    (∀ s, s ∈ sourcesSorted nodes ↔ s ∈ sourcesNames nodes) ∧
    onMessageTurn toks nodes =
      ⟨toks ++ ["\n\nQuellen: " ++ sourcesJoined nodes],
        String.join toks ++ ("\n\nQuellen: " ++ sourcesJoined nodes)⟩ ∧
    sourcesSegmentText
        [⟨[("file_name", "b.txt")]⟩, ⟨[("file_name", "a.txt")]⟩, ⟨[("file_name", "a.txt")]⟩]
      = "\n\nQuellen: a.txt, b.txt" := by
  refine ⟨sorted_sourcesSorted nodes, nodup_sourcesSorted nodes,
    fun s => mem_sourcesSorted_iff, ?_, by decide⟩
  unfold onMessageTurn
  rw [consume_produceAsync]
  simp [h, accumulatedAnswer]

theorem sources_segment_appended_witness :
    sourcesJoined
        [⟨[("file_name", "b.txt")]⟩, ⟨[("file_name", "a.txt")]⟩, ⟨[("file_name", "a.txt")]⟩]
      ≠ "" ∧
    onMessageTurn ["pong", "!"]
        [⟨[("file_name", "b.txt")]⟩, ⟨[("file_name", "a.txt")]⟩, ⟨[("file_name", "a.txt")]⟩] =
      ⟨["pong", "!"] ++
          ["\n\nQuellen: " ++ sourcesJoined
            [⟨[("file_name", "b.txt")]⟩, ⟨[("file_name", "a.txt")]⟩,
              ⟨[("file_name", "a.txt")]⟩]],
        String.join ["pong", "!"] ++
          ("\n\nQuellen: " ++ sourcesJoined
            [⟨[("file_name", "b.txt")]⟩, ⟨[("file_name", "a.txt")]⟩,
              ⟨[("file_name", "a.txt")]⟩])⟩ :=
  ⟨by decide,
    (sources_segment_appended ["pong", "!"]
      [⟨[("file_name", "b.txt")]⟩, ⟨[("file_name", "a.txt")]⟩, ⟨[("file_name", "a.txt")]⟩]
      (by decide)).2.2.2.1⟩

/-- Claim C9: a node with non-empty metadata but neither a `file_name`
nor a `source` key contributes `""` to the deduplicated sources set; when
any other node supplies a non-empty name, the sorted joined list starts
with the empty element so the joined list carries a leading `", "`; and
the segment is suppressed exactly when every contributing value is
empty. -/
theorem sources_empty_name_behaviour (nodes : List AppNode) (n0 : AppNode)
    (hmem : n0 ∈ nodes) (hne : n0.metadata ≠ [])
    (hf : metaGet n0.metadata "file_name" = none)
    (hs : metaGet n0.metadata "source" = none) :
    nodeSourceName n0.metadata = "" ∧
    "" ∈ sourcesSorted nodes ∧
    (∀ n ∈ nodes, n.metadata ≠ [] → nodeSourceName n.metadata ≠ "" →
      ∃ t, sourcesJoined nodes = ", " ++ t) ∧
    (sourcesSegmentText nodes = "" ↔
      ∀ n ∈ nodes, n.metadata ≠ [] → nodeSourceName n.metadata = "") := by
  have hname : nodeSourceName n0.metadata = "" := by
    unfold nodeSourceName
    rw [hf, hs]
    rfl
  have h0 : "" ∈ sourcesSorted nodes := hname ▸ name_mem_sourcesSorted hmem hne
  refine ⟨hname, h0, ?_, ?_, ?_⟩
  · intro n hn hmd hnn
    have hsmem : nodeSourceName n.metadata ∈ sourcesSorted nodes :=
      name_mem_sourcesSorted hn hmd
    obtain ⟨t, ht⟩ := sorted_head_empty (sorted_sourcesSorted nodes) h0
    cases t with
    | nil =>
      rw [ht] at hsmem
      exact absurd (List.mem_singleton.mp hsmem) hnn
    | cons b rest =>
      refine ⟨joinWith ", " (b :: rest), ?_⟩
      unfold sourcesJoined
      rw [ht]
      show "" ++ ", " ++ joinWith ", " (b :: rest) = ", " ++ joinWith ", " (b :: rest)
      exact congrArg (fun x => x ++ joinWith ", " (b :: rest))
        (by decide : ("" ++ ", " : String) = ", ")
  · intro hseg n hn hmd
    by_contra hnn
    have hjoin : sourcesJoined nodes ≠ "" :=
      joinWith_ne_empty_of_mem (name_mem_sourcesSorted hn hmd) hnn
    exact hjoin (sourcesSegmentText_eq_empty_iff.mp hseg)
  · intro hall
    rw [sourcesSegmentText_eq_empty_iff]
    have hallmem : ∀ s ∈ sourcesSorted nodes, s = "" := by
      intro s hsmem
      rw [mem_sourcesSorted_iff] at hsmem
      unfold sourcesNames at hsmem
      rcases List.mem_map.mp hsmem with ⟨n, hn, rfl⟩
      have hn' := List.mem_filter.mp hn
      exact hall n hn'.1 (by simpa [List.isEmpty_iff] using hn'.2)
    have hnd := nodup_sourcesSorted nodes
    unfold sourcesJoined
    cases hl : sourcesSorted nodes with
    | nil => rfl
    | cons a t =>
      cases t with
      | nil =>
        show a = ""
        exact hallmem a (by rw [hl]; exact List.mem_cons_self a _)
      | cons b rest =>
        exfalso
        have ha : a = "" := hallmem a (by rw [hl]; exact List.mem_cons_self a _)
        have hb : b = "" :=
          hallmem b (by rw [hl]; exact List.mem_cons_of_mem a (List.mem_cons_self b _))
        rw [hl] at hnd
        rcases List.nodup_cons.mp hnd with ⟨hna, _⟩
        subst ha
        subst hb
        exact hna (List.mem_cons_self "" rest)

theorem sources_empty_name_behaviour_witness :
    (⟨[("foo", "bar")]⟩ : AppNode) ∈
        [(⟨[("foo", "bar")]⟩ : AppNode), ⟨[("file_name", "a.txt")]⟩] ∧
    (nodeSourceName [("foo", "bar")] = "" ∧
      "" ∈ sourcesSorted [(⟨[("foo", "bar")]⟩ : AppNode), ⟨[("file_name", "a.txt")]⟩] ∧
      (∀ n ∈ [(⟨[("foo", "bar")]⟩ : AppNode), ⟨[("file_name", "a.txt")]⟩],
        n.metadata ≠ [] → nodeSourceName n.metadata ≠ "" →
          ∃ t, sourcesJoined
            [(⟨[("foo", "bar")]⟩ : AppNode), ⟨[("file_name", "a.txt")]⟩] = ", " ++ t) ∧
      (sourcesSegmentText [(⟨[("foo", "bar")]⟩ : AppNode), ⟨[("file_name", "a.txt")]⟩] = "" ↔
        ∀ n ∈ [(⟨[("foo", "bar")]⟩ : AppNode), ⟨[("file_name", "a.txt")]⟩],
          n.metadata ≠ [] → nodeSourceName n.metadata = "")) :=
  ⟨by decide,
    sources_empty_name_behaviour
      [(⟨[("foo", "bar")]⟩ : AppNode), ⟨[("file_name", "a.txt")]⟩]
      ⟨[("foo", "bar")]⟩ (by decide) (by decide) (by decide) (by decide)⟩

/-! ## Retriever construction (`LlamaIndexRetriever.__init__`)

```python
def __init__(self, index: Any) -> None:
    self.index = index
    env = os.environ
    self.k = int(env.get("RETRIEVAL_K", 5))
    self.fetch_k = int(env.get("FETCH_K", 20))
```

The constructor stores the two environment-sourced integers and performs
no validation whatsoever; the `Except` result type records that it cannot
fail with a configuration error. -/

/-- The environment values the constructor reads: `RETRIEVAL_K`
(default 5) and `FETCH_K` (default 20), already parsed by `int(...)`. -/
structure RetrieverEnv where
  retrievalK : Int
  fetchK : Int
deriving DecidableEq

/-- The state the constructed retriever holds. -/
structure RetrieverState where
  k : Int
  fetch_k : Int
deriving DecidableEq

/-- `LlamaIndexRetriever.__init__`: stores `k` and `fetch_k` as read from
the environment.  No comparison of `fetchK` against `retrievalK` occurs
anywhere in the constructor. -/
def retrieverInit (env : RetrieverEnv) : Except String RetrieverState :=
  .ok ⟨env.retrievalK, env.fetchK⟩

/-- Claim C3, counterexample: with `RETRIEVAL_K = 5` and `FETCH_K = 4`
(so `fetchK < topK`), construction does not fail with a configuration
error — it succeeds and stores the two values as given. -/
theorem retriever_no_validation_counterexample :
    (4 : Int) < 5 ∧
    retrieverInit ⟨5, 4⟩ = .ok ⟨5, 4⟩ ∧
    (retrieverInit ⟨5, 4⟩).isOk = true := by
  refine ⟨by decide, rfl, rfl⟩

/-- Claim C3 (amended): retriever construction never fails; for every
configuration, also one with `fetchK < topK`, it succeeds and stores
`k = retrievalK` and `fetch_k = fetchK` unchecked. -/
theorem retrieverInit_always_succeeds (env : RetrieverEnv) :
    retrieverInit env = .ok ⟨env.retrievalK, env.fetchK⟩ ∧
    (retrieverInit env).isOk = true :=
  ⟨rfl, rfl⟩

/-! ## Model-connection bring-up (`_configure_settings_from_env`)

The function raises `ImportError` iff the foundational `llama_index`
objects (`PromptHelper`/`Settings`) are unavailable; every other failure
is absorbed.  The effectful steps — the liveness probe `llm.client.list()`,
`subprocess.Popen(["ollama", "serve"])`, and the timed retry loop — are
made explicit as the observable outcome booleans of a `ConnectEnv`. -/

/-- The configuration and the observable outcomes of the effectful steps
of one `_configure_settings_from_env` run. -/
structure ConnectEnv where
  /-- `PromptHelper`/`Settings` imported successfully. -/
  llamaIndexAvailable : Bool
  /-- The optional `Ollama` class imported successfully (`Ollama is not None`). -/
  ollamaImportAvailable : Bool
  /-- `Ollama(**llm_kwargs)` construction plus `llm.client.list()` probe succeed. -/
  serverReachable : Bool
  /-- `OLLAMA_AUTO_START` is set to a truthy value. -/
  autoStart : Bool
  /-- `subprocess.Popen(["ollama", "serve"], ...)` does not raise. -/
  spawnSucceeds : Bool
  /-- The construct-and-probe retry loop succeeds before the
  `OLLAMA_STARTUP_TIMEOUT` deadline. -/
  startupWithinTimeout : Bool
  /-- `LLM_MODEL` (default `llama3.1:latest`). -/
  modelName : String
  /-- `OLLAMA_API_URL` (default `http://localhost:11434`). -/
  baseUrl : String
  /-- `EMBED_DIM` (default 256). -/
  embedDim : Nat
deriving DecidableEq

/-- The generation handle installed into `Settings.llm`. -/
inductive LLMHandle where
  | ollama (model baseUrl : String)
  | mock
deriving DecidableEq

/-- The global `Settings` state this function writes. -/
structure ConfiguredSettings where
  llm : LLMHandle
  /-- `Settings.embed_model = HashingEmbedding(dim=embed_dim)`. -/
  embedDim : Nat
  /-- A `logger.warning` was emitted before installing the mock. -/
  warnedFallback : Bool
deriving DecidableEq

/-- `_configure_settings_from_env`: raises (`.error`) only when
`PromptHelper is None or Settings is None`; otherwise installs either a
live Ollama handle or, after a logged warning, the `MockLLM` fallback. -/
def configureSettingsFromEnv (env : ConnectEnv) : Except String ConfiguredSettings :=
  if !env.llamaIndexAvailable then .error "llama_index is required"
  else if !env.ollamaImportAvailable then .ok ⟨.mock, env.embedDim, true⟩
  else if env.serverReachable then .ok ⟨.ollama env.modelName env.baseUrl, env.embedDim, false⟩
  else if !env.autoStart then .ok ⟨.mock, env.embedDim, true⟩
  else if !env.spawnSucceeds then .ok ⟨.mock, env.embedDim, true⟩
  else if env.startupWithinTimeout then
    .ok ⟨.ollama env.modelName env.baseUrl, env.embedDim, false⟩
  else .ok ⟨.mock, env.embedDim, true⟩

/-- Claim C5: with the foundational objects constructible, an unreachable
model server and the auto-start flag unset, bring-up returns without
raising and installs the deterministic mock handle after logging a
warning; and across all environments it fails precisely when the
foundational `llama_index` helper objects cannot be constructed — never
for the model-unreachable condition. -/
theorem configure_mock_on_unreachable (env : ConnectEnv)
    (hAvail : env.llamaIndexAvailable = true)
    (hUnreach : env.serverReachable = false)
    (hNoAuto : env.autoStart = false) :
    configureSettingsFromEnv env = .ok ⟨.mock, env.embedDim, true⟩ ∧
    (∀ e : ConnectEnv,
      (configureSettingsFromEnv e).isOk = true ↔ e.llamaIndexAvailable = true) := by
  constructor
  · cases h1 : env.ollamaImportAvailable <;>
      simp [configureSettingsFromEnv, hAvail, hUnreach, hNoAuto, h1]
  · intro e
    cases h1 : e.llamaIndexAvailable <;> cases h2 : e.ollamaImportAvailable <;>
      cases h3 : e.serverReachable <;> cases h4 : e.autoStart <;>
      cases h5 : e.spawnSucceeds <;> cases h6 : e.startupWithinTimeout <;>
      simp [configureSettingsFromEnv, Except.isOk, Except.toBool, h1, h2, h3, h4, h5, h6]

theorem configure_mock_on_unreachable_witness :
    configureSettingsFromEnv
        ⟨true, true, false, false, false, false, "llama3.1:latest",
          "http://localhost:11434", 256⟩ =
      .ok ⟨.mock, 256, true⟩ ∧
    (∀ e : ConnectEnv,
      (configureSettingsFromEnv e).isOk = true ↔ e.llamaIndexAvailable = true) :=
  configure_mock_on_unreachable
    ⟨true, true, false, false, false, false, "llama3.1:latest",
      "http://localhost:11434", 256⟩ rfl rfl rfl

/-! ## Index loading (`LlamaIndexIndexer.load` and `_load_index`)

`LlamaIndexIndexer.load` raises if the storage components are missing,
re-runs `_configure_settings_from_env()` (so the loaded index is bound to
a freshly configured model connection rather than a stale one), then
deserialises through the external storage collaborator.  `_load_index` in
`backend/app.py` reports `False` when the index directory does not exist
or when `load` raises, and otherwise installs index, retriever and
generator and reports `True`. -/

/-- Observable behaviour of the persisted-index directory. -/
structure StorageFS where
  /-- `index_dir.exists()`. -/
  dirExists : String → Bool
  /-- The persisted payload at the directory deserialises cleanly. -/
  wellFormed : String → Bool

/-- The failure cases of a load. -/
inductive LoadFailure where
  /-- The persist directory does not exist. -/
  | indexNotFound
  /-- The persisted index is malformed. -/
  | malformedIndex
  /-- `ImportError` from missing `llama_index` components. -/
  | importErr (msg : String)
deriving DecidableEq

/-- A deserialised, ready index. -/
structure LoadedIndex where
  persistDir : String
deriving DecidableEq

/-- Modelled from the spec: the external storage collaborator
(`StorageContext.from_defaults` plus `load_index_from_storage`, absent
from this repository), specified at its interface boundary (§6 "Persisted
index directory", §4.3 `load`, §7 "Malformed persisted index"): loading
fails with index-not-found when the directory does not exist, fails when
the persisted payload is malformed, and otherwise returns a ready
index. -/
def loadFromStorage (fs : StorageFS) (dir : String) : Except LoadFailure LoadedIndex :=
  if !fs.dirExists dir then .error .indexNotFound
  else if !fs.wellFormed dir then .error .malformedIndex
  else .ok ⟨dir⟩

/-- `LlamaIndexIndexer.load(persist_dir)`: raise for missing storage
components, reconfigure `Settings` from the environment, then load from
storage.  On success the pair is (the freshly written global `Settings`,
the loaded index). -/
def indexerLoad (env : ConnectEnv) (fs : StorageFS) (dir : String) :
    Except LoadFailure (ConfiguredSettings × LoadedIndex) :=
  if !env.llamaIndexAvailable then
    .error (.importErr "llama_index storage components are required")
  else
    match configureSettingsFromEnv env with
    | .error e => .error (.importErr e)
    | .ok settings =>
      match loadFromStorage fs dir with
      | .error e => .error e
      | .ok idx => .ok (settings, idx)

/-- `_load_index` in `backend/app.py`: `False` when the directory does
not exist, `False` when `load` raises (the bare `except Exception`),
otherwise `True` with the loaded pipeline state installed. -/
def appLoadIndex (env : ConnectEnv) (fs : StorageFS) (indexDir : String) :
    Bool × Option (ConfiguredSettings × LoadedIndex) :=
  if !fs.dirExists indexDir then (false, none)
  else
    match indexerLoad env fs indexDir with
    | .error _ => (false, none)
    | .ok si => (true, some si)

/-- The `on_message` gate: `if not retriever or not generator:` the turn
is rejected with the "Kein Index geladen." reply. -/
def queryTurnAccepted (loaded : Option (ConfiguredSettings × LoadedIndex)) : Bool :=
  loaded.isSome

theorem configure_ok_of_available {env : ConnectEnv}
    (hAvail : env.llamaIndexAvailable = true) :
    ∃ s, configureSettingsFromEnv env = .ok s := by
  cases h1 : env.ollamaImportAvailable <;> cases h2 : env.serverReachable <;>
    cases h3 : env.autoStart <;> cases h4 : env.spawnSucceeds <;>
    cases h5 : env.startupWithinTimeout <;>
    simp [configureSettingsFromEnv, hAvail, h1, h2, h3, h4, h5]

/-- Claim C6: with the storage components importable, loading a
non-existent directory fails with index-not-found; a malformed persisted
index fails and is handled by the caller exactly like index-not-found
(`_load_index` reports no index loaded, so query turns are rejected until
a rebuild); and loading an existing well-formed directory returns a ready
index re-bound to the freshly configured model connection. -/
theorem indexer_load_spec (env : ConnectEnv) (fs : StorageFS) (dir : String)
    (hAvail : env.llamaIndexAvailable = true) :
    (fs.dirExists dir = false →
      indexerLoad env fs dir = .error .indexNotFound ∧
      appLoadIndex env fs dir = (false, none) ∧
      queryTurnAccepted (appLoadIndex env fs dir).2 = false) ∧
    (fs.dirExists dir = true → fs.wellFormed dir = false →
      indexerLoad env fs dir = .error .malformedIndex ∧
      appLoadIndex env fs dir = (false, none) ∧
      queryTurnAccepted (appLoadIndex env fs dir).2 = false) ∧
    (fs.dirExists dir = true → fs.wellFormed dir = true →
      ∃ s, configureSettingsFromEnv env = .ok s ∧
        indexerLoad env fs dir = .ok (s, ⟨dir⟩) ∧
        appLoadIndex env fs dir = (true, some (s, ⟨dir⟩)) ∧
        queryTurnAccepted (appLoadIndex env fs dir).2 = true) := by
  obtain ⟨s, hs⟩ := configure_ok_of_available hAvail
  refine ⟨?_, ?_, ?_⟩
  · intro hnex
    have h1 : indexerLoad env fs dir = .error .indexNotFound := by
      simp [indexerLoad, hAvail, hs, loadFromStorage, hnex]
    exact ⟨h1, by simp [appLoadIndex, hnex, queryTurnAccepted],
      by simp [appLoadIndex, hnex, queryTurnAccepted]⟩
  · intro hex hbad
    have h1 : indexerLoad env fs dir = .error .malformedIndex := by
      simp [indexerLoad, hAvail, hs, loadFromStorage, hex, hbad]
    exact ⟨h1, by simp [appLoadIndex, hex, h1, queryTurnAccepted],
      by simp [appLoadIndex, hex, h1, queryTurnAccepted]⟩
  · intro hex hgood
    have h1 : indexerLoad env fs dir = .ok (s, ⟨dir⟩) := by
      simp [indexerLoad, hAvail, hs, loadFromStorage, hex, hgood]
    exact ⟨s, hs, h1, by simp [appLoadIndex, hex, h1, queryTurnAccepted],
      by simp [appLoadIndex, hex, h1, queryTurnAccepted]⟩

theorem indexer_load_spec_witness :
    ((⟨fun d => d == "vectorstore/llama", fun _ => true⟩ : StorageFS).dirExists
        "missing" = false →
      indexerLoad
          ⟨true, true, true, false, false, false, "m", "u", 16⟩
          ⟨fun d => d == "vectorstore/llama", fun _ => true⟩ "missing" =
        .error .indexNotFound ∧
      appLoadIndex ⟨true, true, true, false, false, false, "m", "u", 16⟩
          ⟨fun d => d == "vectorstore/llama", fun _ => true⟩ "missing" = (false, none) ∧
      queryTurnAccepted
        (appLoadIndex ⟨true, true, true, false, false, false, "m", "u", 16⟩
          ⟨fun d => d == "vectorstore/llama", fun _ => true⟩ "missing").2 = false) ∧
    ((⟨fun d => d == "vectorstore/llama", fun _ => true⟩ : StorageFS).dirExists
        "missing" = true →
      (⟨fun d => d == "vectorstore/llama", fun _ => true⟩ : StorageFS).wellFormed
        "missing" = false →
      indexerLoad ⟨true, true, true, false, false, false, "m", "u", 16⟩
          ⟨fun d => d == "vectorstore/llama", fun _ => true⟩ "missing" =
        .error .malformedIndex ∧
      appLoadIndex ⟨true, true, true, false, false, false, "m", "u", 16⟩
          ⟨fun d => d == "vectorstore/llama", fun _ => true⟩ "missing" = (false, none) ∧
      queryTurnAccepted
        (appLoadIndex ⟨true, true, true, false, false, false, "m", "u", 16⟩
          ⟨fun d => d == "vectorstore/llama", fun _ => true⟩ "missing").2 = false) ∧
    ((⟨fun d => d == "vectorstore/llama", fun _ => true⟩ : StorageFS).dirExists
        "missing" = true →
      (⟨fun d => d == "vectorstore/llama", fun _ => true⟩ : StorageFS).wellFormed
        "missing" = true →
      ∃ s, configureSettingsFromEnv
          ⟨true, true, true, false, false, false, "m", "u", 16⟩ = .ok s ∧
        indexerLoad ⟨true, true, true, false, false, false, "m", "u", 16⟩
            ⟨fun d => d == "vectorstore/llama", fun _ => true⟩ "missing" =
          .ok (s, ⟨"missing"⟩) ∧
        appLoadIndex ⟨true, true, true, false, false, false, "m", "u", 16⟩
            ⟨fun d => d == "vectorstore/llama", fun _ => true⟩ "missing" =
          (true, some (s, ⟨"missing"⟩)) ∧
        queryTurnAccepted
          (appLoadIndex ⟨true, true, true, false, false, false, "m", "u", 16⟩
            ⟨fun d => d == "vectorstore/llama", fun _ => true⟩ "missing").2 = true) :=
  indexer_load_spec
    ⟨true, true, true, false, false, false, "m", "u", 16⟩
    ⟨fun d => d == "vectorstore/llama", fun _ => true⟩ "missing" rfl

/-! ## Incremental JSON index build (`indexer/ingest.py`, `build_index`)

```python
index = {}
if index_file.exists():
    try:
        index = json.loads(index_file.read_text(encoding="utf-8"))
    except json.JSONDecodeError:
        index = {}
updated_paths = set()
for path in docs_dir.glob("**/*"):
    if not path.is_file():
        continue
    content = _read_file(path)
    if content is None:
        continue
    rel_path = str(path.relative_to(docs_dir))
    index[rel_path] = content
    updated_paths.add(rel_path)
index = {k: v for k, v in index.items() if k in updated_paths}
index_file.write_text(json.dumps(index, ...))
```

The JSON object is modelled by its map semantics, a function
`String → Option String` from relative path to stored text; the document
tree by the list of files the `glob` traversal visits, each paired with
`_read_file`'s result (`some text` for a supported readable file, `none`
for an unsupported or unreadable one, which the loop skips).  An absent or
invalid prior `index.json` is the empty prior map. -/

/-- One step of the ingestion loop: on readable content, write the
entry into the index (dict assignment) and add the relative path to
`updated_paths`; otherwise `continue`. -/
def ingestStep (acc : (String → Option String) × List String)
    (f : String × Option String) : (String → Option String) × List String :=
  match f.2 with
  | some c => (fun k => if k = f.1 then some c else acc.1 k, f.1 :: acc.2)
  | none => acc

/-- `build_index`'s resulting mapping: fold the loop over the visited
files starting from the prior index and an empty `updated_paths`, then
keep only keys in `updated_paths` (the prune of removed files). -/
def buildIndexMap (prior : String → Option String)
    (files : List (String × Option String)) : String → Option String :=
  let st := files.foldl ingestStep (prior, [])
  fun k => if k ∈ st.2 then st.1 k else none

/-- The content of the last visited readable file at a given relative
path, if any: the reference "full rebuild from empty" semantics. -/
def lastContent : List (String × Option String) → String → Option String
  | [], _ => none
  | (r, oc) :: fs, k =>
    match lastContent fs k with
    | some c => some c
    | none => if r = k then oc else none

theorem buildIndexMap_foldl_eq (files : List (String × Option String)) :
    ∀ (d : String → Option String) (u : List String) (k : String),
      (let st := files.foldl ingestStep (d, u)
        if k ∈ st.2 then st.1 k else none) =
      (match lastContent files k with
        | some c => some c
        | none => if k ∈ u then d k else none) := by
  induction files with
  | nil => intro d u k; rfl
  | cons f fs ih =>
    intro d u k
    obtain ⟨r, oc⟩ := f
    cases oc with
    | none =>
      show (let st := fs.foldl ingestStep (d, u)
          if k ∈ st.2 then st.1 k else none) = _
      rw [ih d u k]
      simp only [lastContent]
      cases h : lastContent fs k with
      | some c => rfl
      | none =>
        by_cases hrk : r = k
        · subst hrk
          simp
        · simp [hrk]
    | some c =>
      show (let st := fs.foldl ingestStep
              (fun k' => if k' = r then some c else d k', r :: u)
            if k ∈ st.2 then st.1 k else none) = _
      rw [ih _ (r :: u) k]
      simp only [lastContent]
      cases h : lastContent fs k with
      | some c' => rfl
      | none =>
        by_cases hrk : r = k
        · subst hrk
          simp [List.mem_cons]
        · simp only [List.mem_cons, hrk, if_neg hrk]
          have hne : ¬ k = r := fun h' => hrk h'.symm
          simp [hne]

/-- Claim C7: for every prior `index.json` content (an absent or invalid
file is the empty prior map) and every state of the documents directory,
`build_index` leaves the index mapping exactly the relative paths of the
currently visited readable supported files to their extracted text, with
entries for removed files pruned — identical to a full rebuild from an
empty index over the same document set. -/
theorem build_index_merge_eq_rebuild (prior : String → Option String)
    (files : List (String × Option String)) (k : String) :
    buildIndexMap prior files k = lastContent files k ∧
    buildIndexMap prior files k = buildIndexMap (fun _ => none) files k := by
  have h1 := buildIndexMap_foldl_eq files prior [] k
  have h2 := buildIndexMap_foldl_eq files (fun _ => none) [] k
  simp only [List.not_mem_nil, if_false] at h1 h2
  constructor
  · show (let st := files.foldl ingestStep (prior, [])
        if k ∈ st.2 then st.1 k else none) = lastContent files k
    rw [h1]
    cases lastContent files k <;> simp
  · show (let st := files.foldl ingestStep (prior, [])
        if k ∈ st.2 then st.1 k else none) =
      (let st := files.foldl ingestStep ((fun _ => none), [])
        if k ∈ st.2 then st.1 k else none)
    rw [h1, h2]

/-! ## Tokenization (`text.lower().split()`)

Python's argumentless `str.split` splits on runs of whitespace and never
yields the empty string.  It is embedded structurally over the character
data (Lean's own `String.split` is sealed well-founded recursion the
kernel cannot evaluate).  Lowercasing maps `Char.toLower` over the
characters; for the ASCII texts appearing in the claims this agrees with
Python's `str.lower`. -/

/-- Accumulator-based whitespace split: `acc` holds the current token's
characters in reverse. -/
def splitWsGo : List Char → List Char → List String
  | [], acc => if acc.isEmpty then [] else [String.mk acc.reverse]
  | c :: rest, acc =>
    if c.isWhitespace then
      (if acc.isEmpty then [] else [String.mk acc.reverse]) ++ splitWsGo rest []
    else splitWsGo rest (c :: acc)

/-- `text.lower().split()`. -/
def tokens (text : String) : List String :=
  splitWsGo (text.data.map Char.toLower) []

end RagStack

namespace Sha256

/-! ## SHA-256 (`hashlib.sha256`)

`HashingEmbedding._hash` computes
`int(hashlib.sha256(token.encode("utf-8")).hexdigest(), 16)`.  The FIPS
180-4 algorithm is implemented over `Nat` with explicit `% 2 ^ 32`
truncation; `digest` returns the 256-bit big-endian integer the hex
digest denotes.  (Checked during development against the standard test
vectors for `""`, `"abc"` and the two-block
`"abcdbcdecdefdefgefghfghighijhijkijkljklmklmnlmnomnopnopq"`.) -/

/-- `2 ^ 32`. -/
def w32 : Nat := 4294967296

/-- 32-bit truncating addition. -/
def add32 (a b : Nat) : Nat := (a + b) % w32

/-- 32-bit right rotation. -/
def rotr (n x : Nat) : Nat := ((x >>> n) ||| (x <<< (32 - n))) % w32

/-- Logical right shift. -/
def shr (n x : Nat) : Nat := x >>> n

/-- Choose function `Ch(x, y, z)`. -/
def ch (x y z : Nat) : Nat := (x &&& y) ^^^ ((x ^^^ (w32 - 1)) &&& z)

/-- Majority function `Maj(x, y, z)`. -/
def maj (x y z : Nat) : Nat := (x &&& y) ^^^ (x &&& z) ^^^ (y &&& z)

/-- Big sigma-0. -/
def bigS0 (x : Nat) : Nat := rotr 2 x ^^^ rotr 13 x ^^^ rotr 22 x

/-- Big sigma-1. -/
def bigS1 (x : Nat) : Nat := rotr 6 x ^^^ rotr 11 x ^^^ rotr 25 x

/-- Small sigma-0. -/
def smallS0 (x : Nat) : Nat := rotr 7 x ^^^ rotr 18 x ^^^ shr 3 x

/-- Small sigma-1. -/
def smallS1 (x : Nat) : Nat := rotr 17 x ^^^ rotr 19 x ^^^ shr 10 x

/-- The 64 round constants of FIPS 180-4 §4.2.2 (the first 32 bits of
the fractional parts of the cube roots of the first 64 primes), in
decimal: `0x428a2f98` is `1116352408`, and so on. -/
def K : List Nat :=
  [1116352408, 1899447441, 3049323471, 3921009573, 961987163, 1508970993,
   2453635748, 2870763221, 3624381080, 310598401, 607225278, 1426881987,
   1925078388, 2162078206, 2614888103, 3248222580, 3835390401, 4022224774,
   264347078, 604807628, 770255983, 1249150122, 1555081692, 1996064986,
   2554220882, 2821834349, 2952996808, 3210313671, 3336571891, 3584528711,
   113926993, 338241895, 666307205, 773529912, 1294757372, 1396182291,
   1695183700, 1986661051, 2177026350, 2456956037, 2730485921, 2820302411,
   3259730800, 3345764771, 3516065817, 3600352804, 4094571909, 275423344,
   430227734, 506948616, 659060556, 883997877, 958139571, 1322822218,
   1537002063, 1747873779, 1955562222, 2024104815, 2227730452, 2361852424,
   2428436474, 2756734187, 3204031479, 3329325298]

/-- The initial hash value of FIPS 180-4 §5.3.3, in decimal:
`0x6a09e667` is `1779033703`, and so on. -/
def initH : List Nat :=
  [1779033703, 3144134277, 1013904242, 2773480762,
   1359893119, 2600822924, 528734635, 1541459225]

/-- `n` big-endian bytes of `v`. -/
def beBytes (n v : Nat) : List Nat :=
  (List.range n).map (fun i => (v >>> (8 * (n - 1 - i))) % 256)

/-- Append the `0x80` byte, zero padding to 56 mod 64, and the 64-bit
big-endian bit length. -/
def padMessage (msg : List Nat) : List Nat :=
  msg ++ [128] ++ List.replicate ((119 - msg.length % 64) % 64) 0 ++ beBytes 8 (8 * msg.length)

/-- Big-endian 4-byte groups to 32-bit words. -/
def bytesToWords : List Nat → List Nat
  | b0 :: b1 :: b2 :: b3 :: rest => (((b0 * 256 + b1) * 256 + b2) * 256 + b3) :: bytesToWords rest
  | _ => []

/-- Split the word stream into 16-word blocks. -/
def chunkWords : List Nat → List (List Nat)
  | [] => []
  | w :: rest => (w :: rest).take 16 :: chunkWords (rest.drop 15)
termination_by l => l.length
decreasing_by simp [List.length_drop]; omega

/-- Extend 16 words to the 64-word message schedule. -/
def schedule (ws : List Nat) : List Nat :=
  (List.range 48).foldl
    (fun w _ =>
      w ++ [add32 (add32 (w.getD (w.length - 16) 0) (smallS0 (w.getD (w.length - 15) 0)))
        (add32 (w.getD (w.length - 7) 0) (smallS1 (w.getD (w.length - 2) 0)))])
    ws

/-- The eight working registers. -/
structure Regs where
  ra : Nat
  rb : Nat
  rc : Nat
  rd : Nat
  re : Nat
  rf : Nat
  rg : Nat
  rh : Nat

/-- One compression round for a (constant, schedule word) pair. -/
def round (st : Regs) (kw : Nat × Nat) : Regs :=
  let t1 := add32 st.rh (add32 (bigS1 st.re) (add32 (ch st.re st.rf st.rg) (add32 kw.1 kw.2)))
  let t2 := add32 (bigS0 st.ra) (maj st.ra st.rb st.rc)
  ⟨add32 t1 t2, st.ra, st.rb, st.rc, add32 st.rd t1, st.re, st.rf, st.rg⟩

/-- Compress one 16-word block into the running hash. -/
def compress (h : List Nat) (block : List Nat) : List Nat :=
  let w := schedule block
  let st0 : Regs := ⟨h.getD 0 0, h.getD 1 0, h.getD 2 0, h.getD 3 0,
    h.getD 4 0, h.getD 5 0, h.getD 6 0, h.getD 7 0⟩
  let st := (K.zip w).foldl round st0
  [add32 (h.getD 0 0) st.ra, add32 (h.getD 1 0) st.rb, add32 (h.getD 2 0) st.rc,
   add32 (h.getD 3 0) st.rd, add32 (h.getD 4 0) st.re, add32 (h.getD 5 0) st.rf,
   add32 (h.getD 6 0) st.rg, add32 (h.getD 7 0) st.rh]

/-- The SHA-256 digest of a byte sequence, as the 256-bit big-endian
integer `int(hexdigest, 16)` denotes. -/
def digest (msg : List Nat) : Nat :=
  ((chunkWords (bytesToWords (padMessage msg))).foldl compress initH).foldl
    (fun acc w => acc * w32 + w) 0

end Sha256

namespace RagStack

/-! ## The hashing embedding (`HashingEmbedding._embed`)

```python
def _hash(self, token: str) -> int:
    return int(hashlib.sha256(token.encode("utf-8")).hexdigest(), 16)

def _embed(self, text: str) -> List[float]:
    vec = [0.0] * self.dim
    for token in text.lower().split():
        vec[self._hash(token) % self.dim] += 1.0
    norm = math.sqrt(sum(v * v for v in vec))
    if norm:
        vec = [v / norm for v in vec]
    return vec
```

Floating-point values are idealised as `ℝ`.  The accumulation phase only
ever adds 1.0 to small integer counts, which IEEE doubles represent
exactly, so the only idealisation is in the square root and the final
division. -/

/-- `token.encode("utf-8")`. -/
def utf8Bytes (s : String) : List Nat := s.toUTF8.toList.map UInt8.toNat

/-- `HashingEmbedding._hash`. -/
def hashToken (token : String) : Nat := Sha256.digest (utf8Bytes token)

/-- `vec[i] += 1.0`. -/
noncomputable def incAt : List ℝ → Nat → List ℝ
  | [], _ => []
  | x :: xs, 0 => (x + 1) :: xs
  | x :: xs, n + 1 => x :: incAt xs n

/-- The accumulation loop of `_embed`: start from `[0.0] * dim` and
increment bucket `_hash(token) % dim` for each token. -/
noncomputable def accumulate (dim : Nat) (toks : List String) : List ℝ :=
  toks.foldl (fun vec t => incAt vec (hashToken t % dim)) (List.replicate dim 0)

/-- `sum(v * v for v in vec)`. -/
noncomputable def sumSq (v : List ℝ) : ℝ := (v.map (fun x => x * x)).sum

/-- `math.sqrt(sum(v * v for v in vec))`: the Euclidean norm. -/
noncomputable def l2norm (v : List ℝ) : ℝ := Real.sqrt (sumSq v)

/-- `HashingEmbedding._embed`: accumulate, then divide by the norm when
it is nonzero (`if norm:`), else return the vector unchanged. -/
noncomputable def embed (dim : Nat) (text : String) : List ℝ :=
  if l2norm (accumulate dim (tokens text)) ≠ 0 then
    (accumulate dim (tokens text)).map
      (fun x => x / l2norm (accumulate dim (tokens text)))
  else accumulate dim (tokens text)

theorem incAt_length : ∀ (v : List ℝ) (i : Nat), (incAt v i).length = v.length := by
  intro v
  induction v with
  | nil => intro i; rfl
  | cons x xs ih =>
    intro i
    cases i with
    | zero => rfl
    | succ i => simp [incAt, ih i]

theorem incAt_sum : ∀ (v : List ℝ) (i : Nat), i < v.length → (incAt v i).sum = v.sum + 1 := by
  intro v
  induction v with
  | nil => intro i h; cases h
  | cons x xs ih =>
    intro i h
    cases i with
    | zero => simp [incAt]; ring
    | succ i =>
      have : i < xs.length := by simpa using h
      simp [incAt, ih i this]
      ring

theorem incAt_nonneg : ∀ (v : List ℝ) (i : Nat), (∀ x ∈ v, 0 ≤ x) →
    ∀ x ∈ incAt v i, 0 ≤ x := by
  intro v
  induction v with
  | nil => intro i _ x hx; cases hx
  | cons a xs ih =>
    intro i h x hx
    cases i with
    | zero =>
      rcases List.mem_cons.mp hx with rfl | hx'
      · have := h a (List.mem_cons_self a xs)
        linarith
      · exact h x (List.mem_cons_of_mem a hx')
    | succ i =>
      rcases List.mem_cons.mp hx with rfl | hx'
      · exact h x (List.mem_cons_self x xs)
      · exact ih i (fun y hy => h y (List.mem_cons_of_mem a hy)) x hx'

theorem incAt_comm : ∀ (v : List ℝ) (i j : Nat),
    incAt (incAt v i) j = incAt (incAt v j) i := by
  intro v
  induction v with
  | nil => intro i j; rfl
  | cons x xs ih =>
    intro i j
    cases i with
    | zero =>
      cases j with
      | zero => rfl
      | succ j => rfl
    | succ i =>
      cases j with
      | zero => rfl
      | succ j =>
        show x :: incAt (incAt xs i) j = x :: incAt (incAt xs j) i
        rw [ih]

theorem foldl_incAt_length (dim : Nat) :
    ∀ (toks : List String) (v : List ℝ),
      (toks.foldl (fun vec t => incAt vec (hashToken t % dim)) v).length = v.length := by
  intro toks
  induction toks with
  | nil => intro v; rfl
  | cons t ts ih =>
    intro v
    show (ts.foldl _ (incAt v (hashToken t % dim))).length = v.length
    rw [ih, incAt_length]

theorem accumulate_length (dim : Nat) (toks : List String) :
    (accumulate dim toks).length = dim := by
  unfold accumulate
  rw [foldl_incAt_length, List.length_replicate]

theorem foldl_incAt_sum (dim : Nat) (hdim : 0 < dim) :
    ∀ (toks : List String) (v : List ℝ), v.length = dim →
      (toks.foldl (fun vec t => incAt vec (hashToken t % dim)) v).sum =
        v.sum + toks.length := by
  intro toks
  induction toks with
  | nil => intro v _; simp
  | cons t ts ih =>
    intro v hv
    show (ts.foldl _ (incAt v (hashToken t % dim))).sum = v.sum + (((t :: ts).length : Nat) : ℝ)
    rw [ih _ (by rw [incAt_length, hv]),
      incAt_sum v _ (by rw [hv]; exact Nat.mod_lt _ hdim)]
    simp only [List.length_cons]
    push_cast
    ring

theorem accumulate_sum (dim : Nat) (hdim : 0 < dim) (toks : List String) :
    (accumulate dim toks).sum = toks.length := by
  unfold accumulate
  rw [foldl_incAt_sum dim hdim _ _ (List.length_replicate _ _)]
  simp

theorem accumulate_nonneg (dim : Nat) (toks : List String) :
    ∀ x ∈ accumulate dim toks, 0 ≤ x := by
  unfold accumulate
  generalize hv : List.replicate dim (0 : ℝ) = v
  have hbase : ∀ x ∈ v, 0 ≤ x := by
    intro x hx
    rw [← hv] at hx
    rw [List.eq_of_mem_replicate hx]
  clear hv
  induction toks generalizing v with
  | nil => exact hbase
  | cons t ts ih =>
    exact ih _ (incAt_nonneg v _ hbase)

theorem sumSq_cons (a : ℝ) (t : List ℝ) : sumSq (a :: t) = a * a + sumSq t := by
  simp [sumSq]

theorem sumSq_nonneg (v : List ℝ) : 0 ≤ sumSq v := by
  apply List.sum_nonneg
  intro x hx
  rcases List.mem_map.mp hx with ⟨y, _, rfl⟩
  exact mul_self_nonneg y

theorem sq_le_sumSq {v : List ℝ} {x : ℝ} (h : x ∈ v) : x * x ≤ sumSq v := by
  induction v with
  | nil => cases h
  | cons a t ih =>
    rw [sumSq_cons]
    rcases List.mem_cons.mp h with rfl | h'
    · have := sumSq_nonneg t
      linarith
    · have := ih h'
      have := mul_self_nonneg a
      linarith

theorem exists_ne_zero_of_sum_ne_zero {v : List ℝ} (h : v.sum ≠ 0) :
    ∃ x ∈ v, x ≠ 0 := by
  by_contra hc
  push_neg at hc
  exact h (List.sum_eq_zero hc)

theorem sumSq_pos_of_mem {v : List ℝ} {x : ℝ} (hm : x ∈ v) (hx : x ≠ 0) :
    0 < sumSq v :=
  lt_of_lt_of_le (mul_self_pos.mpr hx) (sq_le_sumSq hm)

theorem sumSq_map_div (v : List ℝ) (c : ℝ) :
    sumSq (v.map (fun x => x / c)) = sumSq v / (c * c) := by
  induction v with
  | nil => simp [sumSq]
  | cons a t ih =>
    simp only [List.map_cons, sumSq_cons, ih]
    rw [div_mul_div_comm, add_div]

theorem sumSq_replicate_zero (n : Nat) : sumSq (List.replicate n (0 : ℝ)) = 0 := by
  induction n with
  | zero => simp [sumSq]
  | succ n ih => rw [List.replicate_succ, sumSq_cons, ih]; ring

/-- Claim C2: whenever `text.lower().split()` yields at least one token,
`embed(text)` has Euclidean norm exactly 1 (hence within the claimed
`1e-6` of 1.0); when the text has no tokens it is the all-zero vector of
length `dim`. -/
theorem embed_norm_one_or_zero (dim : Nat) (text : String) (hdim : 0 < dim) :
    (tokens text ≠ [] → l2norm (embed dim text) = 1) ∧
    (tokens text = [] → embed dim text = List.replicate dim 0) := by
  constructor
  · intro hne
    have hsum : (accumulate dim (tokens text)).sum = (tokens text).length :=
      accumulate_sum dim hdim _
    have hlpos : 0 < (tokens text).length := List.length_pos.mpr hne
    have hsne : (accumulate dim (tokens text)).sum ≠ 0 := by
      rw [hsum]
      exact_mod_cast Nat.pos_iff_ne_zero.mp hlpos
    obtain ⟨x, hxm, hx⟩ := exists_ne_zero_of_sum_ne_zero hsne
    have hS : 0 < sumSq (accumulate dim (tokens text)) := sumSq_pos_of_mem hxm hx
    have hnpos : 0 < l2norm (accumulate dim (tokens text)) := Real.sqrt_pos.mpr hS
    have hnne : l2norm (accumulate dim (tokens text)) ≠ 0 := ne_of_gt hnpos
    unfold embed
    rw [if_pos hnne]
    unfold l2norm
    rw [sumSq_map_div, Real.mul_self_sqrt hS.le, div_self (ne_of_gt hS), Real.sqrt_one]
  · intro hempty
    have hacc : accumulate dim (tokens text) = List.replicate dim 0 := by
      rw [hempty]
      rfl
    have hzero : l2norm (accumulate dim (tokens text)) = 0 := by
      rw [hacc]
      unfold l2norm
      rw [sumSq_replicate_zero, Real.sqrt_zero]
    unfold embed
    rw [if_neg (by simp [hzero]), hacc]

theorem embed_norm_one_or_zero_witness :
    0 < 256 ∧
    ((tokens "hello" ≠ [] → l2norm (embed 256 "hello") = 1) ∧
      (tokens "hello" = [] → embed 256 "hello" = List.replicate 256 0)) :=
  ⟨by decide, embed_norm_one_or_zero 256 "hello" (by decide)⟩

/-- Claim C8: two texts whose lowercased whitespace-separated tokens form
the same multiset (for example `"hello world"` and `"world hello"`)
embed to identical vectors: the embedding is an order-independent
bag-of-tokens. -/
theorem embed_bag_of_tokens (dim : Nat) (s1 s2 : String)
    (h : (tokens s1 : Multiset String) = (tokens s2 : Multiset String)) :
    embed dim s1 = embed dim s2 := by
  have hperm : List.Perm (tokens s1) (tokens s2) := Multiset.coe_eq_coe.mp h
  have hacc : accumulate dim (tokens s1) = accumulate dim (tokens s2) := by
    unfold accumulate
    exact hperm.foldl_eq'
      (fun x _ y _ v => incAt_comm v (hashToken x % dim) (hashToken y % dim)) _
  unfold embed
  rw [hacc]

theorem embed_bag_of_tokens_witness :
    (tokens "hello world" : Multiset String) = (tokens "world hello" : Multiset String) ∧
    embed 256 "hello world" = embed 256 "world hello" :=
  ⟨by decide, embed_bag_of_tokens 256 "hello world" "world hello" (by decide)⟩

/-- Claim C10: for every text and dimension `dim > 0`, `_embed` returns a
vector of length exactly `dim` whose components all lie in `[0, 1]`. -/
theorem embed_length_and_bounds (dim : Nat) (text : String) (_hdim : 0 < dim) :
    (embed dim text).length = dim ∧ ∀ x ∈ embed dim text, 0 ≤ x ∧ x ≤ 1 := by
  have hvlen : (accumulate dim (tokens text)).length = dim := accumulate_length dim _
  have hvnn : ∀ x ∈ accumulate dim (tokens text), 0 ≤ x := accumulate_nonneg dim _
  unfold embed
  by_cases hn : l2norm (accumulate dim (tokens text)) ≠ 0
  · rw [if_pos hn]
    refine ⟨by rw [List.length_map, hvlen], ?_⟩
    intro x hx
    rcases List.mem_map.mp hx with ⟨y, hy, rfl⟩
    have hnpos : 0 < l2norm (accumulate dim (tokens text)) :=
      lt_of_le_of_ne (Real.sqrt_nonneg _) (Ne.symm hn)
    constructor
    · exact div_nonneg (hvnn y hy) hnpos.le
    · rw [div_le_one hnpos]
      calc y = Real.sqrt (y * y) := (Real.sqrt_mul_self (hvnn y hy)).symm
        _ ≤ l2norm (accumulate dim (tokens text)) := Real.sqrt_le_sqrt (sq_le_sumSq hy)
  · rw [if_neg hn]
    push_neg at hn
    have hS : sumSq (accumulate dim (tokens text)) = 0 :=
      le_antisymm (Real.sqrt_eq_zero'.mp hn) (sumSq_nonneg _)
    refine ⟨hvlen, ?_⟩
    intro x hx
    have h1 : x * x ≤ 0 := hS ▸ sq_le_sumSq hx
    have h2 : x = 0 := mul_self_eq_zero.mp (le_antisymm h1 (mul_self_nonneg x))
    rw [h2]
    exact ⟨le_refl 0, by norm_num⟩

theorem embed_length_and_bounds_witness :
    0 < 256 ∧
    ((embed 256 "the cat sat").length = 256 ∧
      ∀ x ∈ embed 256 "the cat sat", 0 ≤ x ∧ x ≤ 1) :=
  ⟨by decide, embed_length_and_bounds 256 "the cat sat" (by decide)⟩

end RagStack
